import Mathlib

/-!
Verification of the torus (3D tube Tetris) core against its specification.

The development shallowly embeds the TypeScript sources:
* `TubeGeometry` (coordinate mapping between cyclic tube coordinates and
  continuous world coordinates), with JavaScript numbers modelled as reals,
  `Math.atan2` as the complex argument, `Math.round` as `round`
  (both round halves up) and the JavaScript `%` operator as `Int.tmod`
  (truncated remainder, sign of the dividend);
* the grid, timing and scoring code from `TETRIS_MECHANICS.md`
  (`checkCompleteRings`, `LockDelaySystem`, `GameTimer`, `InputTimer`,
  `calculateLineScore`, `ComboSystem`), with millisecond durations modelled
  as rationals so that all of it stays executable;
* `TubeGrid.clearRings`, which has no implementation in the repository
  (only the `ITubeGrid` interface declares it), modelled from the spec.
-/

noncomputable section RealGeometry

/-- JavaScript `Math.atan2 y x`, modelled as the argument of the complex
number `x + y * I`; both lie in `(-π, π]`. Real arithmetic has no signed
zeros, so at the origin this returns `0`, which matches
`Math.atan2(+0, +0)`; JavaScript's other signed-zero origin results
(such as `Math.atan2(+0, -0) = π`) have no counterpart here, and no theorem
below relies on the model's value at an origin the program reaches with a
negative zero. -/
def atan2 (y x : ℝ) : ℝ := Complex.arg (Complex.mk x y)

/-- Embeds the `TubeGeometry` class fields (`src/unnamed/part_001`): `radius`,
`height` and `segments` are numbers stored by the constructor; `segments` is
kept as an integer because all call sites use it as a segment count. -/
structure TubeGeometry where
  radius : ℝ
  height : ℝ
  segments : ℤ

/-- Embeds the `TubeGeometry` constructor body, which only stores its three
arguments (`this.radius = radius` and so on) and performs no validation. -/
def TubeGeometry.create (radius height : ℝ) (segments : ℤ) : TubeGeometry :=
  { radius := radius, height := height, segments := segments }

/-- Embeds `getSegmentAngle`: `(segment / this.segments) * Math.PI * 2`. -/
def TubeGeometry.getSegmentAngle (g : TubeGeometry) (segment : ℝ) : ℝ :=
  segment / (g.segments : ℝ) * Real.pi * 2

/-- Embeds `tubeToWorld`: `x = cos(angle) * radius`, `y = row - height / 2`,
`z = sin(angle) * radius`, returned as the triple `(x, y, z)`. -/
def TubeGeometry.tubeToWorld (g : TubeGeometry) (segment row : ℝ) : ℝ × ℝ × ℝ :=
  let angle := g.getSegmentAngle segment
  (Real.cos angle * g.radius, row - g.height / 2, Real.sin angle * g.radius)

/-- Embeds `worldToTube`: the angle is `Math.atan2(z, x)`, normalized into
`[0, 2π)` by adding `2π` when negative; the segment is
`Math.round(normalizedAngle / (2π) * segments) % segments` with the JavaScript
truncated remainder; the row is `Math.round(y + height / 2)`. -/
def TubeGeometry.worldToTube (g : TubeGeometry) (p : ℝ × ℝ × ℝ) : ℤ × ℤ :=
  let angle := atan2 p.2.2 p.1
  let normalizedAngle := if angle < 0 then angle + Real.pi * 2 else angle
  let segment := (round (normalizedAngle / (Real.pi * 2) * (g.segments : ℝ))).tmod g.segments
  let row := round (p.2.1 + g.height / 2)
  (segment, row)

end RealGeometry

/-- Embeds the `BASE_SCORES` table of `calculateLineScore`
(`TETRIS_MECHANICS.md`): scores for 0 to 4 cleared lines. -/
def BASE_SCORES : List ℤ := [0, 40, 100, 300, 1200]

/-- Embeds `calculateLineScore(linesCleared, level)`: out-of-range
`linesCleared` (negative or `≥ BASE_SCORES.length`) returns `0`, otherwise
`BASE_SCORES[linesCleared] * (level + 1)`. Total by construction, mirroring
the guard in the source. -/
def calculateLineScore (linesCleared level : ℤ) : ℤ :=
  if linesCleared < 0 ∨ (BASE_SCORES.length : ℤ) ≤ linesCleared then 0
  else BASE_SCORES.getD linesCleared.toNat 0 * (level + 1)

/-- Embeds the `ComboSystem` state: the private `comboCount` field. -/
structure ComboSystem where
  comboCount : ℕ

/-- Embeds `ComboSystem.calculateComboBonus(linesCleared, level)`: a zero-line
turn resets the combo count and awards 0; otherwise the bonus is
`comboCount * 50 * (level + 1)` computed before the count is incremented.
Returns the awarded bonus together with the updated state. -/
def ComboSystem.calculateComboBonus (c : ComboSystem) (linesCleared level : ℕ) :
    ℕ × ComboSystem :=
  if linesCleared = 0 then (0, { comboCount := 0 })
  else (c.comboCount * 50 * (level + 1), { comboCount := c.comboCount + 1 })

/-- Embeds the `TubeGrid` data used by `checkCompleteRings`
(`TETRIS_MECHANICS.md`): `segments` cells around the circumference, `height`
rows, and the cell matrix `cells[row][segment]` with `0` denoting empty. -/
structure TubeGrid where
  segments : ℕ
  height : ℕ
  cells : List (List ℕ)

/-- Embeds the inner loop of `checkCompleteRings`: a ring is complete unless
some segment of the row holds a cell comparing `=== 0` (a missing entry is
`undefined`, which does not compare `=== 0`, hence the `Option` equality). -/
def TubeGrid.isRingComplete (grid : TubeGrid) (row : ℕ) : Bool :=
  (List.range grid.segments).all fun segment =>
    !((grid.cells.getD row [])[segment]? == some 0)

/-- Embeds `checkCompleteRings(grid)`: scan the rows in increasing order and
collect those whose every segment is occupied. -/
def TubeGrid.checkCompleteRings (grid : TubeGrid) : List ℕ :=
  (List.range grid.height).filter fun row => grid.isRingComplete row

/-- Modelled from the spec: `TubeGrid.clearRings` has no implementation in the
repository sources (only the `ITubeGrid` interface declares it). Following
spec §4.3, it removes the given rows in one compacted pass: build the
retained row sequence (original order, excluding the cleared row indices),
then pad the newly vacated rows at the top (the high indices) with empty
cells. -/
def TubeGrid.clearRings (grid : TubeGrid) (rings : List ℕ) : TubeGrid :=
  let retained := ((List.range grid.cells.length).filter
      fun r => decide (r ∉ rings)).map fun r => grid.cells.getD r []
  let vacated := List.replicate (grid.cells.length - retained.length)
    (List.replicate grid.segments 0)
  { grid with cells := retained ++ vacated }

/-- Concrete five-row, one-segment grid used to witness the `clearRings`
theorem. -/
def gridC2 : TubeGrid := { segments := 1, height := 5, cells := [[1], [2], [3], [4], [5]] }

/-- Concrete grid used to witness the ring-detection theorem: rows 0 and 2
are complete, row 1 has an empty cell. -/
def gridC3 : TubeGrid := { segments := 2, height := 3, cells := [[1, 1], [0, 1], [2, 3]] }

/-- Embeds the `LockDelaySystem` state (`TETRIS_MECHANICS.md`): the private
`lockTimer` (milliseconds, modelled as a rational) and `resetCount`. -/
structure LockDelaySystem where
  lockTimer : ℚ
  resetCount : ℕ

/-- The `LOCK_DELAY` constant: 500 milliseconds. -/
def LOCK_DELAY : ℚ := 500

/-- The `MAX_RESETS` constant: at most 15 timer resets per piece. -/
def MAX_RESETS : ℕ := 15

/-- Embeds `LockDelaySystem.update(deltaTime, pieceMoved)`: when the piece
moved and fewer than `MAX_RESETS` resets were used, zero the timer, count the
reset and report no lock; otherwise accumulate the timer and report lock as
soon as it reaches `LOCK_DELAY`. Returns the new state and the lock report. -/
def LockDelaySystem.update (s : LockDelaySystem) (deltaTime : ℚ)
    (pieceMoved : Bool) : LockDelaySystem × Bool :=
  if pieceMoved ∧ s.resetCount < MAX_RESETS then
    ({ lockTimer := 0, resetCount := s.resetCount + 1 }, false)
  else
    ({ s with lockTimer := s.lockTimer + deltaTime },
      decide (LOCK_DELAY ≤ s.lockTimer + deltaTime))

/-- Embeds `LockDelaySystem.reset()`: both fields zeroed, as on a new spawn. -/
def LockDelaySystem.reset : LockDelaySystem := { lockTimer := 0, resetCount := 0 }

/-- Runs a sequence of `(deltaTime, pieceMoved)` updates on the controller. -/
def runLock (s : LockDelaySystem) : List (ℚ × Bool) → LockDelaySystem
  | [] => s
  | (dt, mv) :: rest => runLock (s.update dt mv).1 rest

/-- Milliseconds of continuous non-movement at the end of a trace: the summed
`deltaTime` of the maximal trailing block of updates with
`pieceMoved = false` (every movement tick resets the running sum). -/
def contNonMove (tr : List (ℚ × Bool)) : ℚ :=
  tr.foldl (fun acc p => if p.2 then 0 else acc + p.1) 0

/-- Milliseconds accumulated since the lock timer was last reset: follows the
controller and sums `deltaTime` over the trailing block of updates in which
the reset branch was not taken. -/
def runLockSince (s : LockDelaySystem) (a : ℚ) : List (ℚ × Bool) → ℚ
  | [] => a
  | (dt, mv) :: rest =>
      if mv ∧ s.resetCount < MAX_RESETS then runLockSince (s.update dt mv).1 0 rest
      else runLockSince (s.update dt mv).1 (a + dt) rest

/-- Trace exhausting the 15 resets with moving ticks and then accumulating
500 ms while the piece keeps moving on every tick. -/
def lockTraceHead : List (ℚ × Bool) :=
  [(1, true), (1, true), (1, true), (1, true), (1, true),
   (1, true), (1, true), (1, true), (1, true), (1, true),
   (1, true), (1, true), (1, true), (1, true), (1, true),
   (100, true), (100, true), (100, true), (100, true)]

/-- The same trace including its final tick, which reports a lock. -/
def lockTrace : List (ℚ × Bool) := lockTraceHead ++ [(100, true)]

/-- Embeds the `GameTimer` state (`TETRIS_MECHANICS.md`): the private
`accumulator` and the fixed `targetFrameTime`, in milliseconds. -/
structure GameTimer where
  accumulator : ℚ
  targetFrameTime : ℚ

/-- Embeds the fixed-timestep loop of `GameTimer.update`:
`while (accumulator >= targetFrameTime)` invoke the callback and subtract
`targetFrameTime`. Returns the number of callback invocations together with
the final accumulator. The JavaScript loop terminates only for a positive
frame time, so the guard carries `0 < f`; for `f ≤ 0` the source loop either
never runs (`acc < f`) or never terminates, and the claim restricts to
`f > 0`, where the two agree. -/
def drainLoop (acc f : ℚ) : ℕ × ℚ :=
  if h : 0 < f ∧ f ≤ acc then
    let r := drainLoop (acc - f) f
    (r.1 + 1, r.2)
  else (0, acc)
termination_by (⌈acc / f⌉).toNat
decreasing_by
  obtain ⟨hf, hle⟩ := h
  have hne : f ≠ 0 := ne_of_gt hf
  have h1 : (acc - f) / f = acc / f - 1 := by
    rw [sub_div, div_self hne]
  have h2 : ⌈(acc - f) / f⌉ = ⌈acc / f⌉ - 1 := by
    rw [h1, Int.ceil_sub_one]
  have h3 : (1 : ℚ) ≤ acc / f := (one_le_div hf).mpr hle
  have h4 : (1 : ℤ) ≤ ⌈acc / f⌉ :=
    Int.one_le_ceil_iff.mpr (lt_of_lt_of_le zero_lt_one h3)
  rw [h2]
  omega

/-- Embeds `GameTimer.update(deltaTime, updateCallback)`: add the real frame
delta to the accumulator, run the fixed-timestep loop counting the callback
calls, and keep the remaining accumulator. -/
def GameTimer.update (t : GameTimer) (deltaTime : ℚ) : ℕ × GameTimer :=
  let r := drainLoop (t.accumulator + deltaTime) t.targetFrameTime
  (r.1, { t with accumulator := r.2 })

/-- Embeds the `InputTimer` state (`TETRIS_MECHANICS.md`): the private
`keyHoldTime` and `lastRepeatTime` accumulators, in milliseconds. -/
structure InputTimer where
  keyHoldTime : ℚ
  lastRepeatTime : ℚ

/-- The `DAS` constant (delayed auto shift): 167 ms initial delay. -/
def DAS : ℚ := 167

/-- The `ARR` constant (auto repeat rate): 33 ms repeat interval. -/
def ARR : ℚ := 33

/-- Embeds `InputTimer.shouldTrigger(deltaTime, keyPressed)`: a released key
zeroes both accumulators and does not trigger; otherwise the hold time grows
by `deltaTime`; the initial press (`keyHoldTime ≤ deltaTime` after the
increment) triggers; once the hold has reached `DAS`, the repeat accumulator
grows and triggers whenever it reaches `ARR`, resetting to zero. Returns the
new state together with the trigger report. -/
def InputTimer.shouldTrigger (t : InputTimer) (deltaTime : ℚ)
    (keyPressed : Bool) : InputTimer × Bool :=
  if !keyPressed then ({ keyHoldTime := 0, lastRepeatTime := 0 }, false)
  else
    let hold := t.keyHoldTime + deltaTime
    if hold ≤ deltaTime then ({ t with keyHoldTime := hold }, true)
    else if DAS ≤ hold then
      let rep := t.lastRepeatTime + deltaTime
      if ARR ≤ rep then ({ keyHoldTime := hold, lastRepeatTime := 0 }, true)
      else ({ keyHoldTime := hold, lastRepeatTime := rep }, false)
    else ({ t with keyHoldTime := hold }, false)

/-- Helper: in a list, `some` of a default lookup agrees with the optional
lookup at indices inside the list. -/
theorem getD_eq_some {α : Type} (l : List α) (i : ℕ) (d : α) (h : i < l.length) :
    some (l.getD i d) = l[i]? := by
  rw [List.getD_eq_getElem?_getD, List.getElem?_eq_getElem h]
  rfl

/-- Helper: `countP` over `range` grows by the indicator of the new element. -/
theorem countP_range_succ (p : ℕ → Bool) (n : ℕ) :
    (List.range (n + 1)).countP p =
      (List.range n).countP p + if p n then 1 else 0 := by
  rw [List.range_succ, List.countP_append]
  simp [List.countP_cons]

/-- Helper: in the filtered range, the element `i` sits at the position given
by the number of kept indices below `i`. -/
theorem filter_range_getElem (p : ℕ → Bool) {n i : ℕ} (hi : i < n)
    (hp : p i = true) :
    ((List.range n).filter p)[(List.range i).countP p]? = some i := by
  induction n with
  | zero => omega
  | succ m ih =>
    rw [List.range_succ, List.filter_append]
    rcases Nat.lt_or_ge i m with h | h
    · rw [List.getElem?_append_left]
      · exact ih h
      · rw [← List.countP_eq_length_filter]
        have h1 : (List.range (i + 1)).countP p ≤ (List.range m).countP p :=
          List.Sublist.countP_le p (List.range_sublist.mpr h)
        rw [countP_range_succ, if_pos hp] at h1
        omega
    · have him : i = m := by omega
      subst him
      rw [List.getElem?_append_right]
      · simp [List.filter_cons, hp, List.countP_eq_length_filter]
      · rw [← List.countP_eq_length_filter]

/-- Helper: counting the indices below `i` that differ from two fixed distinct
indices `r1` and `r2`. -/
theorem countP_not_two {r1 r2 : ℕ} (hne : r1 ≠ r2) (i : ℕ) :
    (List.range i).countP (fun r => decide (r ∉ [r1, r2])) =
      i - (if r1 < i then 1 else 0) - (if r2 < i then 1 else 0) := by
  induction i with
  | zero => simp
  | succ m ih =>
    rw [countP_range_succ, ih]
    have split_r1 : (if r1 < m + 1 then 1 else 0) =
        (if r1 < m then 1 else 0) + (if r1 = m then 1 else 0) := by
      by_cases hc : r1 < m
      · rw [if_pos hc, if_pos (by omega), if_neg (by omega)]
      · by_cases hd : r1 = m
        · rw [if_pos (by omega), if_neg hc, if_pos hd]
        · rw [if_neg (by omega), if_neg hc, if_neg hd]
    have split_r2 : (if r2 < m + 1 then 1 else 0) =
        (if r2 < m then 1 else 0) + (if r2 = m then 1 else 0) := by
      by_cases hc : r2 < m
      · rw [if_pos hc, if_pos (by omega), if_neg (by omega)]
      · by_cases hd : r2 = m
        · rw [if_pos (by omega), if_neg hc, if_pos hd]
        · rw [if_neg (by omega), if_neg hc, if_neg hd]
    have hpm : (if (fun r => decide (r ∉ [r1, r2])) m then (1 : ℕ) else 0) =
        1 - (if r1 = m then 1 else 0) - (if r2 = m then 1 else 0) := by
      by_cases h1 : m = r1
      · rw [if_neg (by simp [h1]), if_pos h1.symm]
        omega
      · by_cases h2 : m = r2
        · rw [if_neg (by simp [h2]), if_neg (fun h => h1 h.symm),
            if_pos h2.symm]
        · rw [if_pos (by simp [h1, h2]), if_neg (fun h => h1 h.symm),
            if_neg (fun h => h2 h.symm)]
    rw [hpm, split_r1, split_r2]
    have hcle1 : (if r1 < m then 1 else 0) + (if r1 = m then 1 else 0) ≤ 1 := by
      by_cases hc : r1 < m
      · rw [if_pos hc, if_neg (by omega)]
      · rw [if_neg hc]
        by_cases hd : r1 = m
        · rw [if_pos hd]
        · rw [if_neg hd]
          omega
    have hcle2 : (if r2 < m then 1 else 0) + (if r2 = m then 1 else 0) ≤ 1 := by
      by_cases hc : r2 < m
      · rw [if_pos hc, if_neg (by omega)]
      · rw [if_neg hc]
        by_cases hd : r2 = m
        · rw [if_pos hd]
        · rw [if_neg hd]
          omega
    have hboth : ¬((if r1 = m then (1:ℕ) else 0) = 1 ∧
        (if r2 = m then (1:ℕ) else 0) = 1) := by
      rintro ⟨ha, hb⟩
      by_cases hd : r1 = m
      · by_cases he : r2 = m
        · exact hne (hd.trans he.symm)
        · rw [if_neg he] at hb
          omega
      · rw [if_neg hd] at ha
        omega
    have hsum : (if r1 < m then (1:ℕ) else 0) + (if r2 < m then 1 else 0) ≤ m := by
      by_cases hc1 : r1 < m
      · by_cases hc2 : r2 < m
        · rw [if_pos hc1, if_pos hc2]
          omega
        · rw [if_pos hc1, if_neg hc2]
          omega
      · by_cases hc2 : r2 < m
        · rw [if_neg hc1, if_pos hc2]
          omega
        · rw [if_neg hc1, if_neg hc2]
          omega
    omega

/-- Helper: combination of `filter_range_getElem` with a `map`. -/
theorem filter_map_range_getElem {α : Type} (f : ℕ → α) (p : ℕ → Bool)
    {n i : ℕ} (hi : i < n) (hp : p i = true) :
    (((List.range n).filter p).map f)[(List.range i).countP p]? = some (f i) := by
  rw [List.getElem?_map, filter_range_getElem p hi hp]
  rfl

/-- C2: clearing the two non-adjacent complete rows `r1 < r2` in one compacted
pass leaves rows below `r1` in place, moves each retained row strictly
between `r1` and `r2` down by exactly one, moves each retained row above `r2`
down by exactly two (so relative order is preserved), keeps the row count,
and fills the two vacated rows at the top with empty cells. -/
theorem clearRings_two_rows_shift (grid : TubeGrid) (r1 r2 : ℕ)
    (hadj : r1 + 1 < r2) (hr2 : r2 < grid.cells.length) :
    (grid.clearRings [r1, r2]).cells.length = grid.cells.length ∧
    (∀ i, i < r1 → (grid.clearRings [r1, r2]).cells[i]? = grid.cells[i]?) ∧
    (∀ i, r1 < i → i < r2 →
      (grid.clearRings [r1, r2]).cells[i - 1]? = grid.cells[i]?) ∧
    (∀ i, r2 < i → i < grid.cells.length →
      (grid.clearRings [r1, r2]).cells[i - 2]? = grid.cells[i]?) ∧
    (grid.clearRings [r1, r2]).cells[grid.cells.length - 2]? =
      some (List.replicate grid.segments 0) ∧
    (grid.clearRings [r1, r2]).cells[grid.cells.length - 1]? =
      some (List.replicate grid.segments 0) := by
  have hne : r1 ≠ r2 := by omega
  set n := grid.cells.length with hn
  set p : ℕ → Bool := fun r => decide (r ∉ [r1, r2]) with hp
  set f : ℕ → List ℕ := fun r => grid.cells.getD r [] with hf
  have hretlen : (((List.range n).filter p).map f).length = n - 2 := by
    rw [List.length_map, ← List.countP_eq_length_filter, hp, countP_not_two hne]
    rw [if_pos (by omega), if_pos (by omega)]
    omega
  have hcells : (grid.clearRings [r1, r2]).cells =
      (((List.range n).filter p).map f) ++
        List.replicate (n - (((List.range n).filter p).map f).length)
          (List.replicate grid.segments 0) := rfl
  have hpad : n - (((List.range n).filter p).map f).length = 2 := by
    rw [hretlen]; omega
  have hkeep : ∀ i, i < n → p i = true →
      (grid.clearRings [r1, r2]).cells[(List.range i).countP p]? =
        grid.cells[i]? := by
    intro i hilt hpi
    have hne12 : i ≠ r1 ∧ i ≠ r2 := by
      rw [hp] at hpi
      simpa using of_decide_eq_true hpi
    have hcnt : (List.range i).countP p < n - 2 := by
      rw [hp, countP_not_two hne]
      split_ifs <;> omega
    rw [hcells, List.getElem?_append_left (by rw [hretlen]; exact hcnt),
      filter_map_range_getElem f p hilt hpi, hf]
    exact getD_eq_some grid.cells i [] hilt
  refine ⟨?_, ?_, ?_, ?_, ?_, ?_⟩
  · rw [hcells, List.length_append, List.length_replicate, hretlen]
    omega
  · intro i hi
    have hpi : p i = true := by
      rw [hp]; simp only [List.mem_cons, List.not_mem_nil, or_false]
      simp only [decide_not]; rw [Bool.not_eq_true']; simp; omega
    have hcnt : (List.range i).countP p = i := by
      rw [hp, countP_not_two hne, if_neg (by omega), if_neg (by omega)]
      omega
    have := hkeep i (by omega) hpi
    rwa [hcnt] at this
  · intro i h1 h2
    have hpi : p i = true := by
      rw [hp]; simp only [List.mem_cons, List.not_mem_nil, or_false]
      simp only [decide_not]; rw [Bool.not_eq_true']; simp; omega
    have hcnt : (List.range i).countP p = i - 1 := by
      rw [hp, countP_not_two hne, if_pos (by omega), if_neg (by omega)]
      omega
    have := hkeep i (by omega) hpi
    rwa [hcnt] at this
  · intro i h1 h2
    have hpi : p i = true := by
      rw [hp]; simp only [List.mem_cons, List.not_mem_nil, or_false]
      simp only [decide_not]; rw [Bool.not_eq_true']; simp; omega
    have hcnt : (List.range i).countP p = i - 2 := by
      rw [hp, countP_not_two hne, if_pos (by omega), if_pos (by omega)]
      omega
    have := hkeep i (by omega) hpi
    rwa [hcnt] at this
  · rw [hcells, List.getElem?_append_right (le_of_eq hretlen), hretlen,
      List.getElem?_replicate, if_pos (by omega)]
  · rw [hcells, List.getElem?_append_right (by rw [hretlen]; omega), hretlen,
      List.getElem?_replicate, if_pos (by omega)]

/-- C2 witness: the clearing theorem applied to a concrete grid, clearing the
non-adjacent rows 1 and 3. -/
theorem clearRings_two_rows_shift_witness :
    1 + 1 < 3 ∧ 3 < gridC2.cells.length ∧
    (gridC2.clearRings [1, 3]).cells[gridC2.cells.length - 1]? =
      some (List.replicate gridC2.segments 0) :=
  ⟨by decide, by decide,
    (clearRings_two_rows_shift gridC2 1 3 (by decide) (by decide)).2.2.2.2.2⟩

/-- C3: on a well-formed grid, `checkCompleteRings` returns exactly the rows
all of whose segments are occupied (nonzero), and the returned indices are
strictly ascending. -/
theorem checkCompleteRings_exact (grid : TubeGrid)
    (hlen : grid.cells.length = grid.height)
    (hrows : ∀ row ∈ grid.cells, row.length = grid.segments) :
    List.Pairwise (· < ·) grid.checkCompleteRings ∧
    ∀ row : ℕ, row ∈ grid.checkCompleteRings ↔
      row < grid.height ∧
        ∀ s, s < grid.segments → (grid.cells.getD row []).getD s 0 ≠ 0 := by
  have hrowlen : ∀ row, row < grid.height →
      (grid.cells.getD row []).length = grid.segments := by
    intro row hlt
    have h' : row < grid.cells.length := by omega
    refine hrows _ ?_
    rw [List.getD_eq_getElem?_getD, List.getElem?_eq_getElem h', Option.getD_some]
    exact List.getElem_mem h'
  constructor
  · exact List.Pairwise.sublist (List.filter_sublist _) (List.pairwise_lt_range _)
  · intro row
    rw [TubeGrid.checkCompleteRings, List.mem_filter, List.mem_range]
    constructor
    · rintro ⟨hlt, hcomp⟩
      refine ⟨hlt, fun s hs => ?_⟩
      rw [TubeGrid.isRingComplete, List.all_eq_true] at hcomp
      have hc := hcomp s (List.mem_range.mpr hs)
      intro h0
      have hsome : (grid.cells.getD row [])[s]? =
          some ((grid.cells.getD row []).getD s 0) :=
        (getD_eq_some _ s 0 (by rw [hrowlen row hlt]; exact hs)).symm
      rw [hsome, Bool.not_eq_true', beq_eq_false_iff_ne] at hc
      exact hc (by rw [h0])
    · rintro ⟨hlt, hall⟩
      refine ⟨hlt, ?_⟩
      rw [TubeGrid.isRingComplete, List.all_eq_true]
      intro s hs
      rw [List.mem_range] at hs
      have hsome : (grid.cells.getD row [])[s]? =
          some ((grid.cells.getD row []).getD s 0) :=
        (getD_eq_some _ s 0 (by rw [hrowlen row hlt]; exact hs)).symm
      rw [hsome]
      simpa using hall s hs

/-- C3 witness: the ring-detection theorem applied to a concrete grid. -/
theorem checkCompleteRings_exact_witness :
    gridC3.cells.length = gridC3.height ∧
    (∀ row ∈ gridC3.cells, row.length = gridC3.segments) ∧
    (List.Pairwise (· < ·) gridC3.checkCompleteRings ∧
      ∀ row : ℕ, row ∈ gridC3.checkCompleteRings ↔
        row < gridC3.height ∧
          ∀ s, s < gridC3.segments → (gridC3.cells.getD row []).getD s 0 ≠ 0) :=
  ⟨by decide, by decide, checkCompleteRings_exact gridC3 (by decide) (by decide)⟩

/-- Helper: the reset count never decreases along a run. -/
theorem runLock_resetCount_mono (tr : List (ℚ × Bool)) :
    ∀ s : LockDelaySystem, s.resetCount ≤ (runLock s tr).resetCount := by
  induction tr with
  | nil =>
    intro s
    exact le_refl _
  | cons hd tl ih =>
    intro s
    obtain ⟨dt, mv⟩ := hd
    have h1 : s.resetCount ≤ ((s.update dt mv).1).resetCount := by
      rw [LockDelaySystem.update]
      split
      · simp
      · simp
    exact le_trans h1 (ih _)

/-- Helper: the reset count never exceeds `MAX_RESETS` along a run. -/
theorem runLock_resetCount_le (tr : List (ℚ × Bool)) :
    ∀ s : LockDelaySystem, s.resetCount ≤ MAX_RESETS →
      (runLock s tr).resetCount ≤ MAX_RESETS := by
  induction tr with
  | nil =>
    intro s hs
    exact hs
  | cons hd tl ih =>
    intro s hs
    obtain ⟨dt, mv⟩ := hd
    show (runLock ((s.update dt mv).1) tl).resetCount ≤ MAX_RESETS
    refine ih _ ?_
    rw [LockDelaySystem.update]
    split
    · next hc => simpa using hc.2
    · simpa using hs

/-- Helper: the since-last-reset sum tracks the lock timer exactly. -/
theorem runLockSince_eq_timer (tr : List (ℚ × Bool)) :
    ∀ (s : LockDelaySystem) (a : ℚ), s.lockTimer = a →
      runLockSince s a tr = (runLock s tr).lockTimer := by
  induction tr with
  | nil =>
    intro s a h
    exact h.symm
  | cons hd tl ih =>
    intro s a h
    obtain ⟨dt, mv⟩ := hd
    by_cases hc : (mv = true ∧ s.resetCount < MAX_RESETS)
    · show (if mv = true ∧ s.resetCount < MAX_RESETS then _ else _) = _
      rw [if_pos hc]
      refine ih _ _ ?_
      rw [LockDelaySystem.update, if_pos hc]
    · show (if mv = true ∧ s.resetCount < MAX_RESETS then _ else _) = _
      rw [if_neg hc]
      refine ih _ _ ?_
      rw [LockDelaySystem.update, if_neg hc, h]

/-- Helper: while the reset cap has not been reached, the since-last-reset
sum coincides with the continuous non-movement sum. -/
theorem runLockSince_eq_contNonMove (tr : List (ℚ × Bool)) :
    ∀ (s : LockDelaySystem) (a : ℚ), (runLock s tr).resetCount < MAX_RESETS →
      runLockSince s a tr =
        tr.foldl (fun acc p => if p.2 then 0 else acc + p.1) a := by
  induction tr with
  | nil =>
    intro s a _
    rfl
  | cons hd tl ih =>
    intro s a hcap
    obtain ⟨dt, mv⟩ := hd
    cases mv with
    | false =>
      show (if false = true ∧ s.resetCount < MAX_RESETS then _ else _) = _
      rw [if_neg (by simp)]
      rw [List.foldl_cons]
      exact ih _ _ hcap
    | true =>
      by_cases hcnt : s.resetCount < MAX_RESETS
      · show (if true = true ∧ s.resetCount < MAX_RESETS then _ else _) = _
        rw [if_pos ⟨rfl, hcnt⟩]
        rw [List.foldl_cons]
        exact ih _ _ hcap
      · exfalso
        have h1 : ((s.update dt true).1).resetCount = s.resetCount := by
          rw [LockDelaySystem.update, if_neg (by simpa using hcnt)]
        have h2 := runLock_resetCount_mono tl ((s.update dt true).1)
        rw [h1] at h2
        have : (runLock s ((dt, true) :: tl)).resetCount =
            (runLock ((s.update dt true).1) tl).resetCount := rfl
        omega

/-- Helper: a lock report comes from the accumulate branch: the state keeps
its reset count, the timer grows by `deltaTime`, and the grown timer has
reached `LOCK_DELAY`. -/
theorem update_lock_report {s : LockDelaySystem} {dt : ℚ} {mv : Bool}
    (h : (s.update dt mv).2 = true) :
    (s.update dt mv).1 = { s with lockTimer := s.lockTimer + dt } ∧
      LOCK_DELAY ≤ s.lockTimer + dt := by
  by_cases hc : (mv = true ∧ s.resetCount < MAX_RESETS)
  · rw [LockDelaySystem.update, if_pos hc] at h
    cases h
  · rw [LockDelaySystem.update, if_neg hc] at h ⊢
    exact ⟨rfl, of_decide_eq_true h⟩

/-- C4 (amended): along any update sequence from the reset state, the reset
count never exceeds `MAX_RESETS`; a lock is only ever reported once
`LOCK_DELAY` (500 ms) has accumulated since the lock timer was last reset;
while fewer than `MAX_RESETS` resets have been used this means 500 ms of
continuous non-movement; and once the cap is reached a movement no longer
clears the timer. -/
theorem lockDelay_amended :
    (∀ tr : List (ℚ × Bool),
      (runLock LockDelaySystem.reset tr).resetCount ≤ MAX_RESETS) ∧
    (∀ (tr : List (ℚ × Bool)) (dt : ℚ) (mv : Bool),
      ((runLock LockDelaySystem.reset tr).update dt mv).2 = true →
        LOCK_DELAY ≤ runLockSince LockDelaySystem.reset 0 (tr ++ [(dt, mv)])) ∧
    (∀ (tr : List (ℚ × Bool)) (dt : ℚ) (mv : Bool),
      ((runLock LockDelaySystem.reset tr).update dt mv).2 = true →
        (runLock LockDelaySystem.reset tr).resetCount < MAX_RESETS →
        LOCK_DELAY ≤ contNonMove (tr ++ [(dt, mv)])) ∧
    (∀ (s : LockDelaySystem) (dt : ℚ), s.resetCount = MAX_RESETS →
      (s.update dt true).1.lockTimer = s.lockTimer + dt ∧
        (s.update dt true).1.resetCount = s.resetCount) := by
  have happ : ∀ (t1 t2 : List (ℚ × Bool)) (s : LockDelaySystem),
      runLock s (t1 ++ t2) = runLock (runLock s t1) t2 := by
    intro t1
    induction t1 with
    | nil =>
      intro t2 s
      rfl
    | cons hd tl ih =>
      intro t2 s
      obtain ⟨d, m⟩ := hd
      exact ih t2 _
  have key : ∀ (tr : List (ℚ × Bool)) (dt : ℚ) (mv : Bool),
      ((runLock LockDelaySystem.reset tr).update dt mv).2 = true →
      LOCK_DELAY ≤ runLockSince LockDelaySystem.reset 0 (tr ++ [(dt, mv)]) := by
    intro tr dt mv h
    obtain ⟨hst, hge⟩ := update_lock_report h
    have ht := runLockSince_eq_timer (tr ++ [(dt, mv)]) LockDelaySystem.reset 0 rfl
    rw [ht, happ tr [(dt, mv)] LockDelaySystem.reset,
      show runLock (runLock LockDelaySystem.reset tr) [(dt, mv)] =
        ((runLock LockDelaySystem.reset tr).update dt mv).1 from rfl, hst]
    exact hge
  refine ⟨?_, key, ?_, ?_⟩
  · intro tr
    exact runLock_resetCount_le tr _ (Nat.zero_le _)
  · intro tr dt mv h hcap
    obtain ⟨hst, _⟩ := update_lock_report h
    have hfin : (runLock LockDelaySystem.reset (tr ++ [(dt, mv)])).resetCount <
        MAX_RESETS := by
      rw [happ tr [(dt, mv)] LockDelaySystem.reset,
        show runLock (runLock LockDelaySystem.reset tr) [(dt, mv)] =
          ((runLock LockDelaySystem.reset tr).update dt mv).1 from rfl, hst]
      exact hcap
    have hcnm := runLockSince_eq_contNonMove (tr ++ [(dt, mv)])
      LockDelaySystem.reset 0 hfin
    have hk := key tr dt mv h
    rw [hcnm] at hk
    exact hk
  · intro s dt h
    rw [LockDelaySystem.update, if_neg (fun hc => by omega)]
    exact ⟨rfl, rfl⟩

/-- C4 counterexample: the claim as stated is false. On a trace of
nonnegative `deltaTime` ticks in which the piece moves on every single tick
(so 0 ms of continuous non-movement ever accumulates), the controller still
reports a lock on the final tick, because after the 15th reset a movement no
longer clears the timer. -/
theorem lockDelay_claim_counterexample :
    (∀ p ∈ lockTrace, 0 ≤ p.1) ∧
    (∀ p ∈ lockTrace, p.2 = true) ∧
    ((runLock LockDelaySystem.reset lockTraceHead).update 100 true).2 = true ∧
    contNonMove lockTrace = 0 ∧
    ¬ LOCK_DELAY ≤ contNonMove lockTrace := by
  refine ⟨by decide, by decide, ?_, ?_, ?_⟩
  · norm_num [lockTraceHead, runLock, LockDelaySystem.update,
      LockDelaySystem.reset, MAX_RESETS, LOCK_DELAY]
  · norm_num [lockTrace, lockTraceHead, contNonMove]
  · norm_num [lockTrace, lockTraceHead, contNonMove, LOCK_DELAY]

/-- C4 witness: the amended theorem applied to the one-tick trace that waits
600 ms without movement. -/
theorem lockDelay_amended_witness :
    ((runLock LockDelaySystem.reset []).update 600 false).2 = true ∧
    LOCK_DELAY ≤ runLockSince LockDelaySystem.reset 0 ([] ++ [((600 : ℚ), false)]) :=
  ⟨by norm_num [runLock, LockDelaySystem.update, LockDelaySystem.reset,
      MAX_RESETS, LOCK_DELAY],
   lockDelay_amended.2.1 [] 600 false (by norm_num [runLock,
      LockDelaySystem.update, LockDelaySystem.reset, MAX_RESETS, LOCK_DELAY])⟩

/-- Helper: closed form of the drain loop on nonnegative accumulators. -/
theorem drainLoop_eq (acc f : ℚ) (hf : 0 < f) (h0 : 0 ≤ acc) :
    drainLoop acc f = ((⌊acc / f⌋).toNat, acc - f * ⌊acc / f⌋) := by
  induction acc, f using drainLoop.induct with
  | case1 acc f h ih =>
    obtain ⟨hfpos, hle⟩ := h
    rw [drainLoop, dif_pos ⟨hfpos, hle⟩]
    have h0' : 0 ≤ acc - f := by linarith
    have hr := ih hfpos h0'
    have h1 : (acc - f) / f = acc / f - 1 := by
      rw [sub_div, div_self (ne_of_gt hfpos)]
    have h2 : ⌊(acc - f) / f⌋ = ⌊acc / f⌋ - 1 := by
      rw [h1, Int.floor_sub_one]
    have h3 : (0 : ℤ) ≤ ⌊(acc - f) / f⌋ :=
      Int.floor_nonneg.mpr (div_nonneg h0' (le_of_lt hfpos))
    rw [hr, h2] at *
    refine Prod.ext ?_ ?_
    · show (⌊acc / f⌋ - 1).toNat + 1 = (⌊acc / f⌋).toNat
      omega
    · show acc - f - f * ((⌊acc / f⌋ - 1 : ℤ) : ℚ) = acc - f * ⌊acc / f⌋
      push_cast
      ring
  | case2 acc f h =>
    rw [drainLoop, dif_neg h]
    have hlt : acc < f := by
      by_contra hc
      exact h ⟨hf, le_of_not_lt hc⟩
    have hfl : ⌊acc / f⌋ = 0 := by
      rw [Int.floor_eq_zero_iff]
      constructor
      · exact div_nonneg h0 (le_of_lt hf)
      · rw [div_lt_one hf]
        exact hlt
    rw [hfl]
    simp

/-- C7: for every accumulator `a ≥ 0`, frame delta `deltaTime ≥ 0` and frame
interval `f > 0`, `GameTimer.update` terminates (it is a total function by
well-founded recursion), invokes the callback exactly
`⌊(a + deltaTime) / f⌋` times, and leaves the accumulator at
`(a + deltaTime) - f * ⌊(a + deltaTime) / f⌋`, which is strictly below `f`. -/
theorem gameTimer_update_exact (a deltaTime f : ℚ) (ha : 0 ≤ a)
    (hdt : 0 ≤ deltaTime) (hf : 0 < f) :
    (((GameTimer.update ⟨a, f⟩ deltaTime).1 : ℕ) : ℤ) = ⌊(a + deltaTime) / f⌋ ∧
    (GameTimer.update ⟨a, f⟩ deltaTime).2.accumulator =
      (a + deltaTime) - f * ⌊(a + deltaTime) / f⌋ ∧
    (GameTimer.update ⟨a, f⟩ deltaTime).2.accumulator < f := by
  have h0 : 0 ≤ a + deltaTime := by linarith
  have hd := drainLoop_eq (a + deltaTime) f hf h0
  have hfl : (0 : ℤ) ≤ ⌊(a + deltaTime) / f⌋ :=
    Int.floor_nonneg.mpr (div_nonneg h0 (le_of_lt hf))
  have hupd1 : (GameTimer.update ⟨a, f⟩ deltaTime).1 = (drainLoop (a + deltaTime) f).1 := rfl
  have hupd2 : (GameTimer.update ⟨a, f⟩ deltaTime).2.accumulator =
      (drainLoop (a + deltaTime) f).2 := rfl
  refine ⟨?_, ?_, ?_⟩
  · rw [hupd1, hd]
    show (((⌊(a + deltaTime) / f⌋).toNat : ℕ) : ℤ) = ⌊(a + deltaTime) / f⌋
    omega
  · rw [hupd2, hd]
  · rw [hupd2, hd]
    have hlt := Int.lt_floor_add_one ((a + deltaTime) / f)
    rw [div_lt_iff₀ hf] at hlt
    push_cast at hlt ⊢
    nlinarith [hlt]

/-- C7 witness: the theorem applied at accumulator 3, delta 4, frame
interval 2 (three callback invocations, remainder 1). -/
theorem gameTimer_update_exact_witness :
    (0 : ℚ) ≤ 3 ∧ (0 : ℚ) ≤ 4 ∧ (0 : ℚ) < 2 ∧
    ((((GameTimer.update ⟨3, 2⟩ 4).1 : ℕ) : ℤ) = ⌊((3 : ℚ) + 4) / 2⌋ ∧
     (GameTimer.update ⟨3, 2⟩ 4).2.accumulator =
       ((3 : ℚ) + 4) - 2 * ⌊((3 : ℚ) + 4) / 2⌋ ∧
     (GameTimer.update ⟨3, 2⟩ 4).2.accumulator < 2) :=
  ⟨by norm_num, by norm_num, by norm_num,
    gameTimer_update_exact 3 4 2 (by norm_num) (by norm_num) (by norm_num)⟩

/-- C8: from the reset state, the first update of a held key triggers
immediately; a released key resets both accumulators and never triggers;
while the key stays held (positive deltas), no trigger occurs until the hold
time reaches the 167 ms initial delay; and once it has, a trigger fires
exactly each time the repeat accumulator reaches the 33 ms interval, the
accumulator resetting to zero on every trigger. -/
theorem inputTimer_das_arr :
    (∀ deltaTime : ℚ, 0 < deltaTime →
      InputTimer.shouldTrigger ⟨0, 0⟩ deltaTime true =
        ({ keyHoldTime := deltaTime, lastRepeatTime := 0 }, true)) ∧
    (∀ (t : InputTimer) (deltaTime : ℚ),
      InputTimer.shouldTrigger t deltaTime false =
        ({ keyHoldTime := 0, lastRepeatTime := 0 }, false)) ∧
    (∀ (t : InputTimer) (deltaTime : ℚ), 0 < deltaTime → 0 < t.keyHoldTime →
      t.keyHoldTime + deltaTime < DAS →
      InputTimer.shouldTrigger t deltaTime true =
        ({ t with keyHoldTime := t.keyHoldTime + deltaTime }, false)) ∧
    (∀ (t : InputTimer) (deltaTime : ℚ), 0 < deltaTime → 0 < t.keyHoldTime →
      DAS ≤ t.keyHoldTime + deltaTime →
      (ARR ≤ t.lastRepeatTime + deltaTime →
        InputTimer.shouldTrigger t deltaTime true =
          ({ keyHoldTime := t.keyHoldTime + deltaTime,
             lastRepeatTime := 0 }, true)) ∧
      (t.lastRepeatTime + deltaTime < ARR →
        InputTimer.shouldTrigger t deltaTime true =
          ({ keyHoldTime := t.keyHoldTime + deltaTime,
             lastRepeatTime := t.lastRepeatTime + deltaTime }, false))) := by
  refine ⟨?_, ?_, ?_, ?_⟩
  · intro dt hdt
    rw [InputTimer.shouldTrigger]
    norm_num
  · intro t dt
    rw [InputTimer.shouldTrigger]
    norm_num
  · intro t dt hdt hkh hlt
    rw [InputTimer.shouldTrigger]
    simp only [Bool.not_true]
    rw [if_neg (by simp), if_neg (by linarith), if_neg (by linarith)]
  · intro t dt hdt hkh hdas
    constructor
    · intro harr
      rw [InputTimer.shouldTrigger]
      simp only [Bool.not_true]
      rw [if_neg (by simp), if_neg (by linarith), if_pos hdas, if_pos harr]
    · intro harr
      rw [InputTimer.shouldTrigger]
      simp only [Bool.not_true]
      rw [if_neg (by simp), if_neg (by linarith), if_pos hdas,
        if_neg (by linarith)]

/-- C8 witness: the theorem's conjuncts applied at concrete inputs — a first
press at 16 ms, and a repeat tick for a hold past the DAS delay whose repeat
accumulator reaches the ARR interval. -/
theorem inputTimer_das_arr_witness :
    ((0 : ℚ) < 16 ∧
      InputTimer.shouldTrigger ⟨0, 0⟩ 16 true =
        ({ keyHoldTime := 16, lastRepeatTime := 0 }, true)) ∧
    ((0 : ℚ) < 16 ∧ (0 : ℚ) < 167 ∧ DAS ≤ (167 : ℚ) + 16 ∧ ARR ≤ (20 : ℚ) + 16 ∧
      InputTimer.shouldTrigger ⟨167, 20⟩ 16 true =
        ({ keyHoldTime := (167 : ℚ) + 16, lastRepeatTime := 0 }, true)) :=
  ⟨⟨by norm_num, inputTimer_das_arr.1 16 (by norm_num)⟩,
   ⟨by norm_num, by norm_num, by norm_num [DAS], by norm_num [ARR],
    ((inputTimer_das_arr.2.2.2 ⟨167, 20⟩ 16 (by norm_num) (by norm_num)
      (by norm_num [DAS])).1 (by norm_num [ARR]))⟩⟩

/-- Helper: `atan2` recovers the angle of a point at angle `θ ∈ (-π, π]` on a
circle of positive radius. -/
theorem atan2_cos_sin {r θ : ℝ} (hr : 0 < r)
    (hθ : θ ∈ Set.Ioc (-Real.pi) Real.pi) :
    atan2 (Real.sin θ * r) (Real.cos θ * r) = θ := by
  rw [atan2, Complex.mk_eq_add_mul_I]
  have h : (↑(Real.cos θ * r) : ℂ) + ↑(Real.sin θ * r) * Complex.I =
      ↑r * (Complex.cos ↑θ + Complex.sin ↑θ * Complex.I) := by
    push_cast [← Complex.ofReal_cos, ← Complex.ofReal_sin]
    ring
  rw [h, Complex.arg_mul_cos_add_sin_mul_I hr hθ]

/-- C1 (amended): for a tube with positive radius and positive segment count,
the coordinate maps round-trip exactly: for every integer segment in
`[0, segments)` and integer row in `[0, rows]`,
`worldToTube (tubeToWorld segment row) = (segment, row)`. -/
theorem worldToTube_tubeToWorld_roundtrip (g : TubeGeometry) (hr : 0 < g.radius)
    (hn : 0 < g.segments) (s row rows : ℤ) (hs0 : 0 ≤ s) (hs1 : s < g.segments)
    (hrow0 : 0 ≤ row) (hrow1 : row ≤ rows) :
    g.worldToTube (g.tubeToWorld s row) = (s, row) := by
  have hn' : (0 : ℝ) < (g.segments : ℝ) := by exact_mod_cast hn
  have hs0' : (0 : ℝ) ≤ (s : ℝ) := by exact_mod_cast hs0
  have hs1' : (s : ℝ) < (g.segments : ℝ) := by exact_mod_cast hs1
  set θ : ℝ := (s : ℝ) / (g.segments : ℝ) * Real.pi * 2 with hθdef
  have hθ0 : 0 ≤ θ := by
    have h1 : (0 : ℝ) ≤ (s : ℝ) / (g.segments : ℝ) := div_nonneg hs0' hn'.le
    have := Real.pi_pos
    rw [hθdef]
    positivity
  have hθ2 : θ < Real.pi * 2 := by
    have hlt : (s : ℝ) / (g.segments : ℝ) < 1 := (div_lt_one hn').mpr hs1'
    have hp2 : (0 : ℝ) < Real.pi * 2 := by positivity
    calc θ = ((s : ℝ) / (g.segments : ℝ)) * (Real.pi * 2) := by
          rw [hθdef]; ring
      _ < 1 * (Real.pi * 2) := mul_lt_mul_of_pos_right hlt hp2
      _ = Real.pi * 2 := one_mul _
  have ht2w : g.tubeToWorld s row =
      (Real.cos θ * g.radius, (row : ℝ) - g.height / 2, Real.sin θ * g.radius) := rfl
  have hatan : atan2 (Real.sin θ * g.radius) (Real.cos θ * g.radius) =
      if θ ≤ Real.pi then θ else θ - Real.pi * 2 := by
    by_cases hc : θ ≤ Real.pi
    · rw [if_pos hc]
      exact atan2_cos_sin hr ⟨by nlinarith [Real.pi_pos], hc⟩
    · rw [if_neg hc]
      push_neg at hc
      have hcos : Real.cos θ = Real.cos (θ - Real.pi * 2) := by
        rw [show θ - Real.pi * 2 = θ - 2 * Real.pi by ring, Real.cos_sub_two_pi]
      have hsin : Real.sin θ = Real.sin (θ - Real.pi * 2) := by
        rw [show θ - Real.pi * 2 = θ - 2 * Real.pi by ring, Real.sin_sub_two_pi]
      rw [hcos, hsin]
      exact atan2_cos_sin hr ⟨by linarith, by linarith [Real.pi_pos]⟩
  have hnorm : (if atan2 (Real.sin θ * g.radius) (Real.cos θ * g.radius) < 0 then
      atan2 (Real.sin θ * g.radius) (Real.cos θ * g.radius) + Real.pi * 2
      else atan2 (Real.sin θ * g.radius) (Real.cos θ * g.radius)) = θ := by
    rw [hatan]
    by_cases hc : θ ≤ Real.pi
    · rw [if_pos hc, if_neg (not_lt.mpr hθ0)]
    · rw [if_neg hc]
      push_neg at hc
      rw [if_pos (by linarith)]
      ring
  have hdiv : θ / (Real.pi * 2) * (g.segments : ℝ) = ((s : ℤ) : ℝ) := by
    have hpi : Real.pi ≠ 0 := Real.pi_ne_zero
    have hnz : (g.segments : ℝ) ≠ 0 := ne_of_gt hn'
    rw [hθdef]
    field_simp
    ring
  rw [ht2w]
  simp only [TubeGeometry.worldToTube]
  rw [Prod.mk.injEq]
  constructor
  · rw [hnorm, hdiv, round_intCast, Int.tmod_eq_of_lt hs0 hs1]
  · rw [sub_add_cancel, round_intCast]

/-- C1 witness: the amended round-trip theorem applied to the tube with
radius 5, height 20 and 8 segments, at segment 0, row 0 (rows bound 20). -/
theorem worldToTube_tubeToWorld_roundtrip_witness :
    (0 : ℝ) < (TubeGeometry.create 5 20 8).radius ∧
    (0 : ℤ) < (TubeGeometry.create 5 20 8).segments ∧
    (TubeGeometry.create 5 20 8).worldToTube
      ((TubeGeometry.create 5 20 8).tubeToWorld ((0 : ℤ) : ℝ) ((0 : ℤ) : ℝ)) =
      (0, 0) :=
  ⟨by norm_num [TubeGeometry.create], by norm_num [TubeGeometry.create],
    worldToTube_tubeToWorld_roundtrip (TubeGeometry.create 5 20 8)
      (by norm_num [TubeGeometry.create]) (by norm_num [TubeGeometry.create])
      0 0 20 (by norm_num) (by norm_num [TubeGeometry.create]) (by norm_num)
      (by norm_num)⟩

/-- C1 counterexample: the claim as stated quantifies over every tube with
`segments > 0`, but at radius 0 (explicitly a well-defined construction per
the spec) the round trip fails. With 4 segments, segment 1 sits at angle
`π/2`: the program computes `x = Math.cos(π/2) * 0 = +0` (the cosine there
is a small positive float, so no sign flip) and `z = +0`, then
`Math.atan2(+0, +0) = 0`, so it returns segment `round(0) % 4 = 0`, not 1 —
in exact agreement with this model, where `x = z = 0` and `atan2 0 0 = 0`.
(The input deliberately keeps both world coordinates at positive zero, away
from the signed-zero origin cases where `Math.atan2` and the real-valued
model differ.) -/
theorem worldToTube_roundtrip_fails_at_zero_radius :
    (0 : ℤ) < (TubeGeometry.create 0 20 4).segments ∧
    (TubeGeometry.create 0 20 4).worldToTube
      ((TubeGeometry.create 0 20 4).tubeToWorld ((1 : ℤ) : ℝ) ((0 : ℤ) : ℝ)) ≠
      (1, 0) := by
  constructor
  · norm_num [TubeGeometry.create]
  · have h1 : (TubeGeometry.create 0 20 4).tubeToWorld ((1 : ℤ) : ℝ) ((0 : ℤ) : ℝ) =
        (0, -10, 0) := by
      simp [TubeGeometry.tubeToWorld, TubeGeometry.getSegmentAngle,
        TubeGeometry.create]
      norm_num
    rw [h1]
    have hmk : (⟨0, 0⟩ : ℂ) = 0 := rfl
    have h2 : (TubeGeometry.create 0 20 4).worldToTube (0, -10, 0) = (0, 0) := by
      simp [TubeGeometry.worldToTube, atan2, TubeGeometry.create, hmk,
        Complex.arg_zero]
      norm_num
    rw [h2]
    decide

/-- C9: evidence that the code contradicts the spec's fail-fast requirement.
The `TubeGeometry` constructor performs no validation: invoked with the
malformed inputs `segments = 0` or a negative height it completes normally
and stores the values as given, instead of signalling a contract violation. -/
theorem create_accepts_malformed_inputs :
    TubeGeometry.create 5 20 0 = { radius := 5, height := 20, segments := 0 } ∧
    TubeGeometry.create 5 (-3) 8 = { radius := 5, height := -3, segments := 8 } :=
  ⟨rfl, rfl⟩

/-- C6: for every `linesCleared` in `{0,1,2,3,4}` and every nonnegative level,
the line score is `BASE[linesCleared] * (level + 1)` with
`BASE = [0, 40, 100, 300, 1200]`; in particular `lineScore 4 0 = 1200`,
`lineScore 1 0 = 40` and `lineScore 0 level = 0` for every level. -/
theorem calculateLineScore_table :
    (∀ level : ℕ,
      calculateLineScore 0 level = 0 * ((level : ℤ) + 1) ∧
      calculateLineScore 1 level = 40 * ((level : ℤ) + 1) ∧
      calculateLineScore 2 level = 100 * ((level : ℤ) + 1) ∧
      calculateLineScore 3 level = 300 * ((level : ℤ) + 1) ∧
      calculateLineScore 4 level = 1200 * ((level : ℤ) + 1)) ∧
    calculateLineScore 4 0 = 1200 ∧ calculateLineScore 1 0 = 40 ∧
    (∀ level : ℕ, calculateLineScore 0 level = 0) := by
  refine ⟨fun level => ?_, by decide, by decide, fun level => ?_⟩ <;>
    norm_num [calculateLineScore, BASE_SCORES, Int.toNat_ofNat] <;>
    exact ⟨Or.inl (by decide), Or.inl (by decide), Or.inl (by decide)⟩

/-- C10: `calculateLineScore` is total on all integer inputs; for every
`linesCleared` outside `[0, 4]` and every level it returns `0` (the guard
in the source short-circuits before any table indexing). -/
theorem calculateLineScore_out_of_range (linesCleared level : ℤ)
    (h : linesCleared < 0 ∨ 5 ≤ linesCleared) :
    calculateLineScore linesCleared level = 0 := by
  have hlen : ((BASE_SCORES.length : ℕ) : ℤ) = 5 := by decide
  unfold calculateLineScore
  rw [if_pos]
  rw [hlen]
  exact h

/-- C10 witness: the theorem applied at `linesCleared = -3` and
`linesCleared = 7`. -/
theorem calculateLineScore_out_of_range_witness :
    (((-3 : ℤ) < 0 ∨ (5 : ℤ) ≤ -3) ∧ calculateLineScore (-3) 7 = 0) ∧
    (((7 : ℤ) < 0 ∨ (5 : ℤ) ≤ 7) ∧ calculateLineScore 7 2 = 0) :=
  ⟨⟨Or.inl (by decide), calculateLineScore_out_of_range (-3) 7 (Or.inl (by decide))⟩,
   ⟨Or.inr (by decide), calculateLineScore_out_of_range 7 2 (Or.inr (by decide))⟩⟩

/-- C5: the combo bonus for a turn clearing at least one line is
`comboCount * 50 * (level + 1)` with the count taken before it is
incremented; a zero-line turn resets the count to 0; and from a fresh state
at level 0, three consecutive single-line clears award 0, 50 and 100. -/
theorem comboBonus_spec :
    (∀ c linesCleared level : ℕ,
      ComboSystem.calculateComboBonus ⟨c⟩ (linesCleared + 1) level =
        (c * 50 * (level + 1), ⟨c + 1⟩)) ∧
    (∀ c level : ℕ, ComboSystem.calculateComboBonus ⟨c⟩ 0 level = (0, ⟨0⟩)) ∧
    ((ComboSystem.calculateComboBonus ⟨0⟩ 1 0).1 = 0 ∧
     (ComboSystem.calculateComboBonus
       (ComboSystem.calculateComboBonus ⟨0⟩ 1 0).2 1 0).1 = 50 ∧
     (ComboSystem.calculateComboBonus
       (ComboSystem.calculateComboBonus
         (ComboSystem.calculateComboBonus ⟨0⟩ 1 0).2 1 0).2 1 0).1 = 100) := by
  refine ⟨fun c l lv => ?_, fun c lv => ?_, by decide⟩
  · simp [ComboSystem.calculateComboBonus]
  · simp [ComboSystem.calculateComboBonus]
